import Mathlib

/-!
Verification development for the EACC agent framework's secure
content-addressed messaging subsystem and job lifecycle manager.

The JavaScript sources are shallowly embedded as executable Lean
definitions.  Bytes are modelled as `Nat` values below 256, byte buffers
as `List Nat`, and JavaScript strings as Lean `String`s manipulated
characterwise (the strings handled by the program -- hex digests, base-58
locators, base-64 envelopes -- are ASCII, where JavaScript's UTF-16
code-unit operations agree with characterwise operations).
External collaborators (HTTP gateways, the pinning service, the ledger
contracts, the wallet's signature scheme, and the AES-256-GCM primitive
of node's crypto module) are parameters of the embedding.
-/

namespace EACC

/-! ## Characterwise string helpers (JavaScript semantics on ASCII data) -/

/-- Characterwise prefix test, modelling JavaScript `String.prototype.startsWith`. -/
def strStartsWith (s pre : String) : Bool :=
  pre.data.isPrefixOf s.data

/-- Characterwise drop, modelling JavaScript `s.slice(n)` for ASCII data. -/
def strDrop (n : Nat) (s : String) : String :=
  String.mk (s.data.drop n)

/-- Characterwise take, modelling JavaScript `s.slice(0, n)` for ASCII data. -/
def strTake (n : Nat) (s : String) : String :=
  String.mk (s.data.take n)

/-- Characterwise lower-casing, modelling JavaScript `toLowerCase` on ASCII data. -/
def strToLower (s : String) : String :=
  String.mk (s.data.map Char.toLower)

/-- Contiguous-sublist test on character lists. -/
def segmentIn : List Char → List Char → Bool
  | needle, [] => needle.isEmpty
  | needle, c :: rest => needle.isPrefixOf (c :: rest) || segmentIn needle rest

/-- Characterwise substring test, modelling JavaScript `String.prototype.includes`. -/
def strIncludes (hay needle : String) : Bool :=
  segmentIn needle.data hay.data

/-- Byte list of a string, modelling `ethers.toUtf8Bytes`/`Buffer.from(s)` on
ASCII content (for ASCII the UTF-8 bytes are the code points). -/
def strBytes (s : String) : List Nat :=
  s.data.map Char.toNat

/-- String from a byte list, modelling `buffer.toString('utf8')` on ASCII bytes. -/
def bytesToStr (bs : List Nat) : String :=
  String.mk (bs.map Char.ofNat)

/-! ## Hex encoding and decoding (node `Buffer` semantics) -/

/-- Value of one hexadecimal digit, `none` for a non-hex character. -/
def hexDigitVal (c : Char) : Option Nat :=
  if '0' ≤ c ∧ c ≤ '9' then some (c.toNat - 48)
  else if 'a' ≤ c ∧ c ≤ 'f' then some (c.toNat - 87)
  else if 'A' ≤ c ∧ c ≤ 'F' then some (c.toNat - 55)
  else none

/-- Pairwise hex parsing; like `Buffer.from(s, 'hex')` it truncates at the
first invalid or incomplete pair instead of failing. -/
def hexPairs : List Char → List Nat
  | c1 :: c2 :: rest =>
    match hexDigitVal c1, hexDigitVal c2 with
    | some h, some l => (16 * h + l) :: hexPairs rest
    | _, _ => []
  | _ => []

/-- Decode a hex string to bytes, modelling `Buffer.from(s, 'hex')`. -/
def hexDecode (s : String) : List Nat :=
  hexPairs s.data

/-- Hexadecimal digit characters. -/
def hexChars : List Char := "0123456789abcdef".data

/-- Two hex characters of one byte. -/
def byteToHex (b : Nat) : List Char :=
  [hexChars.getD (b / 16 % 16) '0', hexChars.getD (b % 16) '0']

/-- Encode bytes as a lowercase hex string, modelling `buffer.toString('hex')`. -/
def bytesToHex (bs : List Nat) : String :=
  String.mk (bs.foldr (fun b acc => byteToHex b ++ acc) [])

/-! ## Base-58 encoding (the `bs58` package) -/

/-- The Bitcoin base-58 alphabet used by `bs58`. -/
def base58Alphabet : List Char :=
  "123456789ABCDEFGHJKLMNPQRSTUVWXYZabcdefghijkmnopqrstuvwxyz".data

/-- Character of one base-58 digit. -/
def base58Char (d : Nat) : Char :=
  base58Alphabet.getD d '1'

/-- Big-endian value of a byte buffer. -/
def bytesToNat (bs : List Nat) : Nat :=
  bs.foldl (fun acc b => 256 * acc + b) 0

/-- Base-58 digit expansion, most significant digit first; fuelled so that it
is structurally recursive (fuel `v` always suffices since each step divides
the value by 58). -/
def natToBase58Aux : Nat → Nat → List Nat
  | 0, _ => []
  | f + 1, v =>
    if v = 0 then []
    else natToBase58Aux f (v / 58) ++ [v % 58]

/-- Base-58 digits of a natural number, most significant first. -/
def natToBase58 (v : Nat) : List Nat :=
  natToBase58Aux v v

/-- Base-58 encoding of a byte buffer, modelling `bs58.encode`: one `'1'`
per leading zero byte, then the base-58 digits of the big-endian value. -/
def bs58encode (bs : List Nat) : String :=
  String.mk
    (List.replicate (bs.takeWhile (· == 0)).length '1' ++
      (natToBase58 (bytesToNat bs)).map base58Char)

/-! ## Multihash and digest-to-locator conversion (`Encryption.hashToCid`) -/

/-- Multihash framing `multihash.encode(digest, 'sha2-256')`: the sha2-256
code `0x12`, the digest length, then the digest (both header values fit in
one varint byte for digests shorter than 128 bytes, the only case the
program produces). -/
def multihashSha256 (digest : List Nat) : List Nat :=
  0x12 :: digest.length :: digest

/-- `Encryption.hashToCid`: strip an optional `0x` prefix; return strings that
already look like a CID (prefix `Qm`) unchanged; otherwise hex-decode,
multihash-wrap and base-58 encode.  The function's `try/catch` wrapper is
unreachable in this model because all modelled steps are total. -/
def hashToCid (hash : String) : String :=
  let cleanHash := if strStartsWith hash "0x" then strDrop 2 hash else hash
  if strStartsWith cleanHash "Qm" then cleanHash
  else bs58encode (multihashSha256 (hexDecode cleanHash))

/-! ## Keccak-256 (the `ethers.keccak256` collaborator, implemented in full) -/

/-- 64-bit left rotation on `Nat` values below `2 ^ 64`. -/
def rotl64 (x n : Nat) : Nat :=
  ((x <<< n) ||| (x >>> (64 - n))) % 18446744073709551616

/-- 64-bit complement. -/
def not64 (x : Nat) : Nat :=
  18446744073709551615 ^^^ x

/-- Lane `(x, y)` of a Keccak state stored as a flat 25-element list. -/
def lane (A : List Nat) (x y : Nat) : Nat :=
  A.getD (x + 5 * y) 0

/-- Keccak θ step. -/
def keccakTheta (A : List Nat) : List Nat :=
  let C := fun x => lane A x 0 ^^^ lane A x 1 ^^^ lane A x 2 ^^^ lane A x 3 ^^^ lane A x 4
  let D := fun x => C ((x + 4) % 5) ^^^ rotl64 (C ((x + 1) % 5)) 1
  (List.range 25).map (fun i => A.getD i 0 ^^^ D (i % 5))

/-- Source index and rotation for each target lane of the combined ρ and π
steps: entry `t` holds `(s, r)` with `B[t] = rotl64 A[s] r`. -/
def keccakPiSource : List (Nat × Nat) :=
  [(0, 0), (6, 44), (12, 43), (18, 21), (24, 14),
   (3, 28), (9, 20), (10, 3), (16, 45), (22, 61),
   (1, 1), (7, 6), (13, 25), (19, 8), (20, 18),
   (4, 27), (5, 36), (11, 10), (17, 15), (23, 56),
   (2, 62), (8, 55), (14, 39), (15, 41), (21, 2)]

/-- Keccak ρ and π steps. -/
def keccakRhoPi (A : List Nat) : List Nat :=
  keccakPiSource.map (fun p => rotl64 (A.getD p.1 0) p.2)

/-- Keccak χ step. -/
def keccakChi (B : List Nat) : List Nat :=
  (List.range 25).map (fun i =>
    let x := i % 5
    let y := i / 5
    B.getD i 0 ^^^ (not64 (B.getD ((x + 1) % 5 + 5 * y) 0) &&& B.getD ((x + 2) % 5 + 5 * y) 0))

/-- Keccak ι step. -/
def keccakIota (rc : Nat) : List Nat → List Nat
  | [] => []
  | a0 :: rest => (a0 ^^^ rc) :: rest

/-- One Keccak-f round. -/
def keccakRound (A : List Nat) (rc : Nat) : List Nat :=
  keccakIota rc (keccakChi (keccakRhoPi (keccakTheta A)))

/-- The 24 Keccak round constants (decimal values of the standard ι
constants). -/
def keccakRC : List Nat :=
  [1, 32898, 9223372036854808714,
   9223372039002292224, 32907, 2147483649,
   9223372039002292353, 9223372036854808585, 138,
   136, 2147516425, 2147483658,
   2147516555, 9223372036854775947, 9223372036854808713,
   9223372036854808579, 9223372036854808578, 9223372036854775936,
   32778, 9223372039002259466, 9223372039002292353,
   9223372036854808704, 2147483649, 9223372039002292232]

/-- The Keccak-f[1600] permutation. -/
def keccakF (A : List Nat) : List Nat :=
  keccakRC.foldl keccakRound A

/-- Original Keccak multi-rate padding for rate 136 (keccak-256, as used by
Ethereum: pad byte `0x01`, final bit `0x80`, merged to `0x81` when only one
byte of padding fits). -/
def keccakPad (msg : List Nat) : List Nat :=
  let padLen := 136 - msg.length % 136
  if padLen = 1 then msg ++ [0x81]
  else msg ++ [0x01] ++ List.replicate (padLen - 2) 0 ++ [0x80]

/-- Little-endian 64-bit lane of up to eight bytes. -/
def leLane (bs : List Nat) : Nat :=
  bs.foldr (fun b acc => 256 * acc + b) 0

/-- Bytes of one lane, little endian. -/
def laneToBytesLE (v : Nat) : List Nat :=
  (List.range 8).map (fun i => v / 256 ^ i % 256)

/-- Absorb one 136-byte block into the sponge state and permute. -/
def keccakAbsorbBlock (A block : List Nat) : List Nat :=
  let lanes := (List.range 17).map (fun i => leLane ((block.drop (8 * i)).take 8))
  keccakF ((List.range 25).map (fun i => A.getD i 0 ^^^ lanes.getD i 0))

/-- Absorb all 136-byte blocks of an already padded message; fuelled so the
recursion is structural (fuel `rest.length` suffices). -/
def keccakAbsorbChunks : Nat → List Nat → List Nat → List Nat
  | 0, A, _ => A
  | _ + 1, A, [] => A
  | f + 1, A, rest =>
    keccakAbsorbChunks f (keccakAbsorbBlock A (rest.take 136)) (rest.drop 136)

/-- Keccak-256 of a byte message, modelling `ethers.keccak256`. -/
def keccak256 (msg : List Nat) : List Nat :=
  let padded := keccakPad msg
  let final := keccakAbsorbChunks padded.length (List.replicate 25 0) padded
  ((List.range 4).map (fun i => laneToBytesLE (final.getD i 0))).flatten

/-! ## Base-64 (node `Buffer` `'base64'` round trips of the envelope) -/

/-- The standard base-64 alphabet. -/
def base64Alphabet : List Char :=
  "ABCDEFGHIJKLMNOPQRSTUVWXYZabcdefghijklmnopqrstuvwxyz0123456789+/".data

/-- Character of one base-64 digit. -/
def base64Char (d : Nat) : Char :=
  base64Alphabet.getD d 'A'

/-- Base-64 encoding of a byte list with `'='` padding. -/
def base64EncodeGo : List Nat → List Char
  | [] => []
  | [a] => [base64Char (a / 4), base64Char (a % 4 * 16), '=', '=']
  | [a, b] => [base64Char (a / 4), base64Char (a % 4 * 16 + b / 16), base64Char (b % 16 * 4), '=']
  | a :: b :: c :: rest =>
    base64Char (a / 4) :: base64Char (a % 4 * 16 + b / 16) ::
      base64Char (b % 16 * 4 + c / 64) :: base64Char (c % 64) :: base64EncodeGo rest

/-- Modelling `buffer.toString('base64')`. -/
def base64encode (bs : List Nat) : String :=
  String.mk (base64EncodeGo bs)

/-- Value of one base-64 character. -/
def base64Val (c : Char) : Option Nat :=
  if 'A' ≤ c ∧ c ≤ 'Z' then some (c.toNat - 65)
  else if 'a' ≤ c ∧ c ≤ 'z' then some (c.toNat - 97 + 26)
  else if '0' ≤ c ∧ c ≤ '9' then some (c.toNat - 48 + 52)
  else if c = '+' then some 62
  else if c = '/' then some 63
  else none

/-- Base-64 decoding of quadruples with `'='` padding; like
`Buffer.from(s, 'base64')` it stops at malformed input instead of failing. -/
def base64DecodeGo : List Char → List Nat
  | c1 :: c2 :: c3 :: c4 :: rest =>
    match base64Val c1, base64Val c2 with
    | some v1, some v2 =>
      if c3 = '=' then [v1 * 4 + v2 / 16]
      else
        match base64Val c3 with
        | some v3 =>
          if c4 = '=' then [v1 * 4 + v2 / 16, v2 % 16 * 16 + v3 / 4]
          else
            match base64Val c4 with
            | some v4 =>
              (v1 * 4 + v2 / 16) :: (v2 % 16 * 16 + v3 / 4) :: (v3 % 4 * 64 + v4) ::
                base64DecodeGo rest
            | none => []
        | none => []
    | _, _ => []
  | _ => []

/-- Modelling `Buffer.from(s, 'base64')`. -/
def base64decode (s : String) : List Nat :=
  base64DecodeGo s.data

/-! ## AEAD codec (`Encryption.encryptUtf8Data` / `Encryption.decryptToUtf8`)

The node `crypto` AES-256-GCM primitive is external to the repository; it is
modelled by an `AeadPrim` parameter exposing its CTR keystream and its
authentication tag.  The bundled properties state the primitive's contract:
the keystream has the requested length, tags are 16 bytes, and modifying any
single bit of the ciphertext changes the tag (GCM's GHASH guarantees this
whenever the hash subkey is nonzero, which holds for all but a negligible
set of keys). -/

/-- Flip bit `j` of a byte: subtract the bit if it is set, add it otherwise
(for bytes this coincides with `xor` by `2 ^ j`). -/
def flipByte (j b : Nat) : Nat :=
  if b.testBit j then b - 2 ^ j else b + 2 ^ j

/-- Flip the bit at absolute position `i` (byte `i / 8`, bit `i % 8`) of a
byte buffer; positions beyond the buffer leave it unchanged. -/
def flipBitAt (i : Nat) (l : List Nat) : List Nat :=
  l.set (i / 8) (flipByte (i % 8) (l.getD (i / 8) 0))

/-- Bytewise xor of equal-length buffers (CTR-mode combination). -/
def xorBytes (a b : List Nat) : List Nat :=
  List.zipWith (· ^^^ ·) a b

/-- The external AES-256-GCM primitive: a deterministic keystream and MAC
together with its contract. -/
structure AeadPrim where
  keystream : List Nat → List Nat → Nat → List Nat
  mac : List Nat → List Nat → List Nat → List Nat
  keystream_length : ∀ k iv n, (keystream k iv n).length = n
  mac_length : ∀ k iv ct, (mac k iv ct).length = 16
  mac_flip : ∀ k iv ct i, i < 8 * ct.length → mac k iv (flipBitAt i ct) ≠ mac k iv ct

/-- Failures of the AEAD codec, mirroring the distinct node `crypto` errors. -/
inductive CryptoErr where
  | invalidKey
  | authenticationFailure
deriving DecidableEq, Repr

/-- The message node attaches to each `CryptoErr` (the caught error's
`.message`). -/
def cryptoErrMessage : CryptoErr → String
  | .invalidKey => "Invalid key length"
  | .authenticationFailure => "Unsupported state or unable to authenticate data"

/-- `Encryption.encryptUtf8Data`: take the first 64 hex characters of the key,
encrypt with AES-256-GCM under a fresh 16-byte `iv` (lifted to a parameter
here to model `randomBytes(16)`), and lay the envelope out as
`iv (16 bytes) ++ authTag (16 bytes) ++ ciphertext`.  `data` is the UTF-8
byte content of the plaintext string. -/
def encryptUtf8Data (prim : AeadPrim) (iv data : List Nat) (key : String) : Except CryptoErr (List Nat) :=
  let keyBuffer := hexDecode (strTake 64 key)
  if keyBuffer.length ≠ 32 then .error .invalidKey
  else
    let encrypted := xorBytes data (prim.keystream keyBuffer iv data.length)
    let authTag := prim.mac keyBuffer iv encrypted
    .ok (iv ++ authTag ++ encrypted)

/-- `Encryption.decryptToUtf8`: parse `iv := bytes [0,16)`,
`authTag := bytes [16,32)`, `ciphertext := bytes [32,..)`; verify the tag and
only then release the plaintext bytes.  A tag mismatch is the distinct
`authenticationFailure` (node's `decipher.final()` throws before any
concatenated output is returned, so no partial plaintext escapes). -/
def decryptToUtf8 (prim : AeadPrim) (encryptedData : List Nat) (key : String) : Except CryptoErr (List Nat) :=
  let keyBuffer := hexDecode (strTake 64 key)
  if keyBuffer.length ≠ 32 then .error .invalidKey
  else
    let iv := encryptedData.take 16
    let authTag := (encryptedData.drop 16).take 16
    let encrypted := encryptedData.drop 32
    if prim.mac keyBuffer iv encrypted = authTag then
      .ok (xorBytes encrypted (prim.keystream keyBuffer iv encrypted.length))
    else .error .authenticationFailure

/-! ## Session key derivation (`Encryption.getSessionKey`) -/

/-- `Encryption.getSessionKey`: sign the template string
`session-key-jobId-otherPublicKey` with the local wallet and keep the first
32 signature bytes (`signature.slice(2, 66)` of the `0x`-prefixed hex
signature).  The wallet's deterministic signature scheme is the abstract
parameter `sign` (signer identity, message ↦ hex signature). -/
def getSessionKey (sign : String → String → String) (wallet otherPublicKey jobId : String) : String :=
  let messageToSign := "session-key-" ++ jobId ++ "-" ++ otherPublicKey
  let signature := sign wallet messageToSign
  strTake 64 (strDrop 2 signature)

/-! ## Gateway fetching (`Encryption.getFromIpfs`) -/

/-- Terminal failures of `getFromIpfs`: the `AllGatewaysFailed` error built
from `lastError.message`, or the `TypeError` the code raises when it
dereferences a still-`null` `lastError` (only reachable with an empty
gateway list). -/
inductive FetchErr where
  | allGateways (msg : String)
  | nullLastError
deriving DecidableEq, Repr

deriving instance DecidableEq for Except

/-- Result of one fetch run: the value or terminal error, plus the ordered
list of gateway URLs actually contacted (one `axios.get` per entry). -/
structure FetchOutcome where
  result : Except FetchErr String
  attempts : List String
deriving DecidableEq, Repr

/-- One loop iteration's try block: `axios.get(gateway ++ cid)` (the abstract
HTTP environment `env`), then, when a decryption key is supplied, base-64
decode and AEAD-open the body; any failure is caught and reported to the
loop as this attempt's error. -/
def attemptFetch (env : String → Except String String) (prim : AeadPrim)
    (key : Option String) (url : String) : Except String String :=
  match env url with
  | .error e => .error e
  | .ok content =>
    match key with
    | none => .ok content
    | some k =>
      match decryptToUtf8 prim (base64decode content) k with
      | .ok bytes => .ok (bytesToStr bytes)
      | .error e => .error (cryptoErrMessage e)

/-- The gateway loop of `getFromIpfs`, carrying the mutable `lastError`
(`none` models JavaScript `null`). -/
def getFromIpfsGo (env : String → Except String String) (prim : AeadPrim)
    (key : Option String) (cid : String) : List String → Option String → FetchOutcome
  | [], none => ⟨.error .nullLastError, []⟩
  | [], some e => ⟨.error (.allGateways ("Failed to retrieve from all IPFS gateways: " ++ e)), []⟩
  | gateway :: rest, _lastError =>
    let url := gateway ++ cid
    match attemptFetch env prim key url with
    | .ok content => ⟨.ok content, [url]⟩
    | .error e =>
      let r := getFromIpfsGo env prim key cid rest (some e)
      ⟨r.result, url :: r.attempts⟩

/-- `Encryption.getFromIpfs`: try each configured gateway in order, return
the first success, and only after exhausting every gateway raise the
terminal error built from the last recorded failure. -/
def getFromIpfs (env : String → Except String String) (prim : AeadPrim)
    (gateways : List String) (cid : String) (key : Option String) : FetchOutcome :=
  getFromIpfsGo env prim key cid gateways none

/-! ## Marketplace data model and the connector (`EACCConnector`) -/

/-- A job as the connector sees it after decoding the ledger tuple.  String
fields use `""` for absent/falsy values. -/
structure Job where
  id : Nat
  title : String
  state : Nat
  creator : String
  arbitrator : String
  worker : String
  multipleApplicants : Bool
  tags : List String
  contentHash : String
  resultHash : String
deriving DecidableEq, Repr

/-- The all-zero content digest the connector treats as "no content". -/
def zeroContentHash : String :=
  "0x0000000000000000000000000000000000000000000000000000000000000000"

/-- The external world of the connector: ledger reads, the wallet's
signature scheme, the pinning service, and transaction outcomes. -/
structure Chain where
  jobs : Nat → Job
  publicKeys : String → String
  sign : String → String → String
  pin : String → Except String String
  postOk : Nat → Bool
  takeOk : Nat → Bool
  freshIv : List Nat

/-- `Encryption.publishToIpfs`: when an encryption key is supplied, seal the
content and base-64 encode the envelope, then pin the upload; the result is
the pinning service's CID for the stored bytes. -/
def publishToIpfs (pin : String → Except String String) (prim : AeadPrim)
    (iv : List Nat) (content : String) (encryptionKey : Option String) : Except String String :=
  match encryptionKey with
  | none => pin content
  | some k =>
    match encryptUtf8Data prim iv (strBytes content) k with
    | .ok envelope => pin (base64encode envelope)
    | .error e => .error (cryptoErrMessage e)

/-- `EACCConnector.getJobContent`: the empty string for an absent or all-zero
digest; otherwise convert the digest to a CID and fetch it, and on any error
return the empty string rather than raising. -/
def getJobContent (env : String → Except String String) (prim : AeadPrim)
    (gateways : List String) (job : Job) : String :=
  if job.contentHash = "" ∨ job.contentHash = zeroContentHash then ""
  else
    let contentCid := hashToCid job.contentHash
    match (getFromIpfs env prim gateways contentCid none).result with
    | .ok content => content
    | .error _ => ""

/-- `EACCConnector.isRelevantJob`: open state, not yet processed, and a
case-insensitive keyword match against the title, the tags, or the (possibly
empty) fetched content, with each block guarded by JavaScript truthiness. -/
def isRelevantJob (processedJobs : List Nat) (relevantTags : List String)
    (job : Job) (content : String) : Bool :=
  if job.state ≠ 0 then false
  else if processedJobs.contains job.id then false
  else if job.title ≠ "" ∧
      relevantTags.any (fun tag => strIncludes (strToLower job.title) (strToLower tag)) then
    true
  else if job.tags ≠ [] ∧
      job.tags.any (fun tag =>
        relevantTags.any (fun relevantTag => strIncludes (strToLower tag) (strToLower relevantTag))) then
    true
  else if content ≠ "" ∧
      relevantTags.any (fun tag => strIncludes (strToLower content) (strToLower tag)) then
    true
  else false

/-- The content digest `applyForJob` and `deliverResult` record on-chain for
a published message: `ethers.keccak256(ethers.toUtf8Bytes(hash))` applied to
the pinning service's CID string. -/
def applicationContentHash (hash : String) : String :=
  "0x" ++ bytesToHex (keccak256 (strBytes hash))

/-- Distinct failure classes of `applyForJob` (each is a caught exception in
the source; `missingKey` is the `Owner public key not available` error). -/
inductive ApplyErr where
  | missingKey
  | publishFailed
  | postFailed
deriving DecidableEq, Repr

/-- Outcome of `EACCConnector.applyForJob`: the returned boolean, the
classified error if any, the connector's `processedJobs` set afterwards, and
the `postThreadMessage` transactions submitted. -/
structure ApplyOutcome where
  success : Bool
  error : Option ApplyErr
  processed : List Nat
  posted : List (Nat × String × String)
deriving DecidableEq, Repr

/-- Add to the `processedJobs` set (`Set.prototype.add`). -/
def addProcessed (processed : List Nat) (id : Nat) : List Nat :=
  if processed.contains id then processed else id :: processed

/-- `EACCConnector.applyForJob`: look up the creator's published key and fail
with the missing-key error when it is absent (`''` or `'0x'`); otherwise
derive the session key, publish the sealed application, record the keccak
digest of the returned CID via `postThreadMessage`, and only after the
transaction confirms add the job to `processedJobs`. -/
def applyForJob (env : Chain) (prim : AeadPrim) (wallet : String)
    (processed : List Nat) (jobId : Nat) (applicationMessage : String) : ApplyOutcome :=
  let job := env.jobs jobId
  let owner := job.creator
  let ownerPublicKey := env.publicKeys owner
  if ownerPublicKey = "" ∨ ownerPublicKey = "0x" then
    ⟨false, some .missingKey, processed, []⟩
  else
    let sessionKey := getSessionKey env.sign wallet ownerPublicKey (toString jobId)
    match publishToIpfs env.pin prim env.freshIv applicationMessage (some sessionKey) with
    | .error _ => ⟨false, some .publishFailed, processed, []⟩
    | .ok hash =>
      let contentHashBytes := applicationContentHash hash
      if env.postOk jobId then
        ⟨true, none, addProcessed processed jobId, [(jobId, contentHashBytes, owner)]⟩
      else ⟨false, some .postFailed, processed, [(jobId, contentHashBytes, owner)]⟩

/-! ## The agent manager (`AgentManager.processJob` / `processActiveJobs`) -/

/-- A pluggable agent's capability interface (`BaseAgent` subclass). -/
structure AgentSpec where
  isJobMatch : Job → String → Bool
  createApplicationMessage : Job → String → String

/-- An `activeJobs` record (`BaseAgent.addActiveJob` / `updateActiveJob`). -/
structure ActiveRec where
  job : Job
  content : String
  status : String
  data : Option String
deriving DecidableEq, Repr

/-- The manager's process-local mutable state. -/
structure ManagerState where
  processed : List Nat
  active : List (Nat × ActiveRec)
deriving DecidableEq, Repr

/-- Outcome of `AgentManager.processJob` on one job: the state afterwards,
the thread messages posted, and the `takeJob` transactions attempted. -/
structure ProcessJobOutcome where
  state : ManagerState
  posted : List (Nat × String × String)
  takes : List Nat
deriving DecidableEq, Repr

/-- `EACCConnector.takeJob` reduced to its state effect: on success the job
id joins `processedJobs`. -/
def takeJobProcessed (env : Chain) (processed : List Nat) (jobId : Nat) : List Nat :=
  if env.takeOk jobId then addProcessed processed jobId else processed

/-- `AgentManager.processJob`: fetch content, test relevance, pick the first
matching agent, apply, then (for single-applicant jobs) attempt a take and
finally record the job in the agent's `activeJobs` with status `started`. -/
def processJob (env : Chain) (prim : AeadPrim) (wallet : String)
    (fetchEnv : String → Except String String) (gateways : List String)
    (relevantTags : List String) (agents : List AgentSpec)
    (st : ManagerState) (job : Job) : ProcessJobOutcome :=
  let content := getJobContent fetchEnv prim gateways job
  if ¬ isRelevantJob st.processed relevantTags job content then ⟨st, [], []⟩
  else
    match agents.filter (fun a => a.isJobMatch job content) with
    | [] => ⟨st, [], []⟩
    | agent :: _ =>
      let applicationMessage := agent.createApplicationMessage job content
      let ar := applyForJob env prim wallet st.processed job.id applicationMessage
      if ¬ ar.success then ⟨⟨ar.processed, st.active⟩, ar.posted, []⟩
      else
        let afterTake :=
          if ¬ job.multipleApplicants then (takeJobProcessed env ar.processed job.id, [job.id])
          else (ar.processed, [])
        ⟨⟨afterTake.1, (job.id, ⟨job, content, "started", none⟩) :: st.active⟩,
          ar.posted, afterTake.2⟩

/-- Outcome of one `processActiveJobs` iteration on a single active record:
the record afterwards (`none` when removed from `activeJobs`) and the
`deliverResult` calls made. -/
structure ActiveStepOutcome where
  record : Option ActiveRec
  delivers : List Nat
deriving DecidableEq, Repr

/-- One iteration of the `AgentManager.processActiveJobs` loop body for job
`jobId`: re-read the ledger job; drop the record when the local wallet is no
longer the worker; when the job is `Taken` (state 1), the record is still
`started` and no result hash is set (the empty string models a falsy value),
execute, package and deliver, moving the record to `delivered` on success
and to `delivery_failed` on failure; drop records whose state moved past 1;
otherwise leave the record untouched. -/
def processOneActiveJob (env : Chain) (wallet : String)
    (agentExecute : Job → String → String)
    (agentPackage : Job → String → String → String)
    (deliverOk : Nat → String → Bool)
    (jobId : Nat) (rec : ActiveRec) : ActiveStepOutcome :=
  let currentJob := env.jobs jobId
  if strToLower currentJob.worker ≠ strToLower wallet then ⟨none, []⟩
  else if currentJob.state = 1 ∧ rec.status = "started" ∧ currentJob.resultHash = "" then
    let result := agentExecute rec.job rec.content
    let packagedResult := agentPackage rec.job rec.content result
    if deliverOk jobId packagedResult then
      ⟨some { rec with status := "delivered", data := some result }, [jobId]⟩
    else
      ⟨some { rec with status := "delivery_failed" }, [jobId]⟩
  else if currentJob.state > 1 then ⟨none, []⟩
  else ⟨some rec, []⟩

/-! ## Concrete demonstration data used by the theorems below -/

/-- A deterministic signature scheme (each signer's signatures start with the
signer's own 64-character identity): distinct signers or messages give
distinct signatures, as with the wallet's deterministic ECDSA. -/
def signDemo (w m : String) : String :=
  "0x" ++ w ++ m

/-- Signing wallet A, a 64-character identity. -/
def walletA : String :=
  "aaaaaaaaaaaaaaaaaaaaaaaaaaaaaaaaaaaaaaaaaaaaaaaaaaaaaaaaaaaaaaaa"

/-- Signing wallet B, a 64-character identity. -/
def walletB : String :=
  "bbbbbbbbbbbbbbbbbbbbbbbbbbbbbbbbbbbbbbbbbbbbbbbbbbbbbbbbbbbbbbbb"

/-- Verification key published by wallet A. -/
def pubKeyA : String := "0x03aa01"

/-- Verification key published by wallet B. -/
def pubKeyB : String := "0x03bb02"

/-- A CID as returned by the pinning service for a stored application
(46 base-58 characters with the sha2-256 CIDv0 prefix). -/
def storedCid : String :=
  "QmYwAPJzv5CZsnA625s3Xf2nemtYgPpHdWEz79ojWnPbdG"

/-! ## C1 -/

/-- C1: the claim states that `getSessionKey` is symmetric: for a job id and
two distinct signing wallets, each calling it with the other party's
verification key yields the same 32-byte session key.  The code signs the
template `session-key-jobId-otherPublicKey`, so the two parties sign
different messages with different signers; under the deterministic
signature scheme `signDemo` the two derived keys differ, refuting symmetry.
This is the failure mode §4.2 and §9 of the specification flag: the source
lacks the mandated canonical symmetric convention. -/
theorem getSessionKey_not_symmetric :
    getSessionKey signDemo walletA pubKeyB "1" ≠ getSessionKey signDemo walletB pubKeyA "1" := by
  decide

/-! ## C2 -/

set_option maxRecDepth 100000 in
/-- C2: the claim states that the digest recorded on-chain by the publish
path of `applyForJob` converts back, via `hashToCid`, to exactly the locator
of the stored bytes.  The code records
`keccak256(utf8(cid))` — a digest of the locator string, not of the stored
bytes — and `hashToCid` wraps that keccak digest as a sha2-256 multihash,
producing a different locator: for the stored CID `storedCid` the recorded
digest round-trips to `QmZ18ug…`, not back to `storedCid`.  A reader
following `getJobContent`'s `hashToCid(contentHash)` convention therefore
fetches a locator where nothing is stored. -/
theorem applicationDigest_roundtrip_mismatch :
    hashToCid (applicationContentHash storedCid) =
      "QmZ18ugMGMtssJ1PjV6hq9HdEk8sfyzwqaTYAonbwzUNuS" ∧
    hashToCid (applicationContentHash storedCid) ≠ storedCid := by
  constructor
  · decide
  · decide

/-! ## C6 -/

/-- The ledger job used in the C6 scenario: state `Taken` (1), the local
wallet is the worker, no result hash recorded. -/
def jobC6 : Job :=
  ⟨7, "Build a bot", 1, "0xcreator", "", "0xAgent", true, ["bot"], zeroContentHash, ""⟩

/-- A chain environment whose job 7 is `jobC6`. -/
def chainC6 : Chain :=
  ⟨fun _ => jobC6, fun _ => "0x", fun _ _ => "0x00", fun _ => .error "offline",
    fun _ => false, fun _ => false, []⟩

/-- An active record that has just been created for job 7. -/
def recStartedC6 : ActiveRec :=
  ⟨jobC6, "please build a bot", "started", none⟩

/-- The same record after a failed delivery. -/
def recFailedC6 : ActiveRec :=
  ⟨jobC6, "please build a bot", "delivery_failed", none⟩

/-- C6: the claim states that after a failed delivery the record moves to
`delivery_failed`, stays in the active set, and remains eligible for another
delivery attempt on a later poll.  The first conjunct confirms the first two
parts: a failed delivery leaves the record in the map with status
`delivery_failed`.  The second conjunct shows the eligibility part false:
on the next tick the execute-and-deliver branch is guarded by
`status === 'started'`, so the `delivery_failed` record is returned
untouched and no further `deliverResult` call is ever made — the job is
permanently stuck, contradicting the specification's explicit retry
eligibility. -/
theorem deliveryFailed_is_terminal :
    processOneActiveJob chainC6 "0xagent" (fun _ _ => "the result")
        (fun _ _ r => r) (fun _ _ => false) 7 recStartedC6 =
      ⟨some ⟨jobC6, "please build a bot", "delivery_failed", none⟩, [7]⟩ ∧
    processOneActiveJob chainC6 "0xagent" (fun _ _ => "the result")
        (fun _ _ r => r) (fun _ _ => false) 7 recFailedC6 =
      ⟨some recFailedC6, []⟩ := by
  constructor
  · decide
  · decide

/-! ## Helper lemmas for the AEAD codec -/

lemma xorBytes_cancel : ∀ (a b : List Nat), b.length = a.length → xorBytes (xorBytes a b) b = a
  | [], [], _ => rfl
  | [], _ :: _, h => by simp at h
  | _ :: _, [], h => by simp at h
  | x :: xs, y :: ys, h => by
    have hlen : ys.length = xs.length := by simpa using h
    simp only [xorBytes, List.zipWith_cons_cons]
    rw [Nat.xor_cancel_right]
    have := xorBytes_cancel xs ys hlen
    simp only [xorBytes] at this
    rw [this]

lemma flipByte_ne (j b : Nat) : flipByte j b ≠ b := by
  have hpos : 0 < 2 ^ j := Nat.pos_pow_of_pos j (by omega)
  unfold flipByte
  by_cases hb : b.testBit j
  · rw [if_pos hb]
    have hdiv : b / 2 ^ j % 2 = 1 := by
      have h := hb
      rw [Nat.testBit_to_div_mod] at h
      exact of_decide_eq_true h
    have hne0 : b / 2 ^ j ≠ 0 := by
      intro h0
      rw [h0] at hdiv
      simp at hdiv
    have hge : 2 ^ j ≤ b := (Nat.one_le_div_iff hpos).1 (Nat.pos_of_ne_zero hne0)
    omega
  · rw [if_neg hb]
    omega

lemma set_ne_of_getD (l : List Nat) (k v : Nat) (hk : k < l.length)
    (hv : v ≠ l.getD k 0) : l.set k v ≠ l := by
  intro h
  apply hv
  have hk' : k < (l.set k v).length := by rw [List.length_set]; exact hk
  have h1 : (l.set k v).getD k 0 = v := by
    rw [List.getD_eq_getElem _ _ hk', List.getElem_set, if_pos rfl]
  rw [← h1, h]

/-! ## C3 -/

/-- C3: round trip of the AEAD codec.  For every plaintext (as UTF-8 bytes
`data`), every key whose first 64 characters decode to 32 bytes, and every
16-byte `iv`, opening the envelope produced by `encryptUtf8Data` with the
same key returns the plaintext exactly; the envelope is laid out as
`iv (16) ++ authTag (16) ++ ciphertext` and parsed back with the same
offsets. -/
theorem aead_seal_open_roundtrip (prim : AeadPrim) (key : String) (iv data : List Nat)
    (hkey : (hexDecode (strTake 64 key)).length = 32) (hiv : iv.length = 16) :
    (encryptUtf8Data prim iv data key).bind (fun envelope => decryptToUtf8 prim envelope key) =
      .ok data := by
  have hks : (prim.keystream (hexDecode (strTake 64 key)) iv data.length).length = data.length :=
    prim.keystream_length _ _ _
  have hct : (xorBytes data (prim.keystream (hexDecode (strTake 64 key)) iv data.length)).length
      = data.length := by
    simp [xorBytes, List.length_zipWith, hks]
  have hmac : (prim.mac (hexDecode (strTake 64 key)) iv
      (xorBytes data (prim.keystream (hexDecode (strTake 64 key)) iv data.length))).length = 16 :=
    prim.mac_length _ _ _
  simp only [encryptUtf8Data, decryptToUtf8, hkey, ne_eq, not_true_eq_false, if_false,
    ite_false, Except.bind]
  rw [List.append_assoc]
  rw [List.take_left' hiv, List.drop_left' hiv, List.take_left' hmac]
  rw [show (32 : Nat) = 16 + 16 from rfl, ← List.drop_drop, List.drop_left' hiv,
    List.drop_left' hmac]
  rw [if_pos rfl, hct]
  rw [xorBytes_cancel data _ hks]

/-! ## C4 -/

/-- C4: single-bit mutations of the envelope's auth-tag or ciphertext bytes
are rejected.  For every bit position `i` inside the tag region
(bits `[128, 256)`) or the ciphertext region (bits `[256, …)`) of the
envelope produced by `encryptUtf8Data`, opening the flipped envelope yields
the distinct `authenticationFailure` (not a generic decode error), and the
`Except.error` result carries no plaintext bytes.  A tag flip fails because
the recomputed tag of the unchanged ciphertext equals the original tag; a
ciphertext flip fails by the primitive's `mac_flip` contract, which models
GCM's guarantee that modifying the ciphertext changes the tag. -/
theorem aead_open_rejects_bit_flips (prim : AeadPrim) (key : String) (iv data : List Nat)
    (i : Nat) (enc : List Nat)
    (hkey : (hexDecode (strTake 64 key)).length = 32) (hiv : iv.length = 16)
    (hlo : 128 ≤ i) (hhi : i < (32 + data.length) * 8)
    (henc : encryptUtf8Data prim iv data key = .ok enc) :
    decryptToUtf8 prim (flipBitAt i enc) key = .error .authenticationFailure := by
  simp only [encryptUtf8Data, hkey, ne_eq, not_true_eq_false, if_false, ite_false,
    Except.ok.injEq] at henc
  set kb := hexDecode (strTake 64 key) with hkb
  set ks := prim.keystream kb iv data.length with hksdef
  set ct := xorBytes data ks with hctdef
  set tag := prim.mac kb iv ct with htagdef
  have hks : ks.length = data.length := prim.keystream_length _ _ _
  have hct : ct.length = data.length := by
    simp [hctdef, xorBytes, List.length_zipWith, hks]
  have hmac : tag.length = 16 := prim.mac_length _ _ _
  subst henc
  set k := i / 8 with hk
  set j := i % 8 with hj
  have hk16 : 16 ≤ k := by omega
  have hkenv : k < 32 + data.length := by omega
  -- the flipped envelope, with the source byte resolved through the appends
  have hflip : flipBitAt i (iv ++ tag ++ ct) =
      (iv ++ tag ++ ct).set k (flipByte j ((iv ++ tag ++ ct).getD k 0)) := rfl
  set b := (iv ++ tag ++ ct).getD k 0 with hb
  set b' := flipByte j b with hb'
  have hlen12 : (iv ++ tag).length = 32 := by rw [List.length_append, hiv, hmac]
  have hdrop32 : ∀ (m : List Nat), (iv ++ tag ++ m).drop 32 = m := by
    intro m
    exact List.drop_left' hlen12
  have hivslice : (flipBitAt i (iv ++ tag ++ ct)).take 16 = iv := by
    rw [hflip, List.set_take, List.append_assoc, List.take_left' hiv,
      List.set_eq_of_length_le (by omega)]
  have hdrop16 : (flipBitAt i (iv ++ tag ++ ct)).drop 16 = (tag ++ ct).set (k - 16) b' := by
    rw [hflip, List.drop_set, if_neg (by omega), List.append_assoc, List.drop_left' hiv]
  have htagslice : ((flipBitAt i (iv ++ tag ++ ct)).drop 16).take 16 = tag.set (k - 16) b' := by
    rw [hdrop16, List.set_take, List.take_left' hmac]
  simp only [decryptToUtf8, hkey, ne_eq, not_true_eq_false, if_false, ite_false, ← hkb]
  rw [hivslice, htagslice]
  by_cases hreg : k < 32
  · -- flip inside the auth-tag region: ciphertext unchanged, stored tag changed
    have hctslice : (flipBitAt i (iv ++ tag ++ ct)).drop 32 = ct := by
      rw [hflip, List.drop_set, if_pos (by omega), hdrop32]
    rw [hctslice]
    have hbval : b = tag.getD (k - 16) 0 := by
      rw [hb, List.getD_append (iv ++ tag) ct 0 k (by rw [hlen12]; omega),
        List.getD_append_right iv tag 0 k (by rw [hiv]; omega), hiv]
    have hne : tag.set (k - 16) b' ≠ tag := by
      apply set_ne_of_getD _ _ _ (by omega)
      rw [← hbval]
      exact flipByte_ne j b
    have hcond : ¬ (prim.mac kb iv ct = tag.set (k - 16) b') := fun h => hne h.symm
    rw [if_neg hcond]
  · -- flip inside the ciphertext region: stored tag unchanged, MAC changes
    have hk32 : 32 ≤ k := by omega
    have htagunchanged : tag.set (k - 16) b' = tag :=
      List.set_eq_of_length_le (by omega)
    have hctslice : (flipBitAt i (iv ++ tag ++ ct)).drop 32 = ct.set (k - 32) b' := by
      rw [hflip, List.drop_set, if_neg (by omega), hdrop32]
    have hbval : b = ct.getD (k - 32) 0 := by
      rw [hb, List.getD_append_right (iv ++ tag) ct 0 k (by rw [hlen12]; omega), hlen12]
    have hflipct : ct.set (k - 32) b' = flipBitAt (i - 256) ct := by
      unfold flipBitAt
      have e1 : (i - 256) / 8 = k - 32 := by omega
      have e2 : (i - 256) % 8 = j := by omega
      rw [e1, e2, ← hbval, ← hb']
    have hmacne : ¬ (prim.mac kb iv (ct.set (k - 32) b') = tag) := by
      rw [htagdef, hflipct]
      exact prim.mac_flip kb iv ct (i - 256) (by omega)
    rw [htagunchanged, hctslice, if_neg hmacne]

/-! ## A concrete AEAD primitive witnessing the `AeadPrim` contract -/

/-- Byte sum of a buffer. -/
def sumBytes (l : List Nat) : Nat :=
  l.foldr (· + ·) 0

lemma sumBytes_set : ∀ (l : List Nat) (k v : Nat), k < l.length →
    sumBytes (l.set k v) + l.getD k 0 = sumBytes l + v
  | [], k, v, h => by simp at h
  | x :: xs, 0, v, _ => by
    simp only [List.set_cons_zero, List.getD_cons_zero, sumBytes, List.foldr_cons]
    omega
  | x :: xs, k + 1, v, h => by
    have h' : k < xs.length := by simpa using h
    have ih := sumBytes_set xs k v h'
    simp only [sumBytes, List.foldr_cons, List.set_cons_succ, List.getD_cons_succ] at ih ⊢
    omega

lemma getD_le_sumBytes : ∀ (l : List Nat) (k : Nat), k < l.length → l.getD k 0 ≤ sumBytes l
  | [], k, h => by simp at h
  | x :: xs, 0, _ => by
    simp only [List.getD_cons_zero, sumBytes, List.foldr_cons]
    omega
  | x :: xs, k + 1, h => by
    have ih := getD_le_sumBytes xs k (by simpa using h)
    simp only [sumBytes, List.foldr_cons, List.getD_cons_succ] at ih ⊢
    omega

lemma flipByte_spec (j b : Nat) :
    (2 ^ j ≤ b ∧ flipByte j b = b - 2 ^ j) ∨ flipByte j b = b + 2 ^ j := by
  have hpos : 0 < 2 ^ j := Nat.pos_pow_of_pos j (by omega)
  unfold flipByte
  by_cases hb : b.testBit j
  · left
    refine ⟨?_, by rw [if_pos hb]⟩
    have hdiv : b / 2 ^ j % 2 = 1 := by
      have h := hb
      rw [Nat.testBit_to_div_mod] at h
      exact of_decide_eq_true h
    have hne0 : b / 2 ^ j ≠ 0 := by
      intro h0
      rw [h0] at hdiv
      simp at hdiv
    exact (Nat.one_le_div_iff hpos).1 (Nat.pos_of_ne_zero hne0)
  · right
    rw [if_neg hb]

/-- Zero keystream: the simplest deterministic CTR stream. -/
def demoKeystream (_k _iv : List Nat) (n : Nat) : List Nat :=
  List.replicate n 0

/-- Byte-sum MAC: the first tag byte is the ciphertext's byte sum modulo 256,
which changes under any single-bit flip of the ciphertext. -/
def demoMac (_k _iv ct : List Nat) : List Nat :=
  (sumBytes ct % 256) :: List.replicate 15 0

lemma demoMac_flip (K IV ct : List Nat) (i : Nat) (h : i < 8 * ct.length) :
    demoMac K IV (flipBitAt i ct) ≠ demoMac K IV ct := by
  have hp : i / 8 < ct.length := by omega
  have hsum := sumBytes_set ct (i / 8) (flipByte (i % 8) (ct.getD (i / 8) 0)) hp
  have hble := getD_le_sumBytes ct (i / 8) hp
  have hpow_pos : 0 < 2 ^ (i % 8) := Nat.pos_pow_of_pos _ (by omega)
  have hpow_le : (2 : Nat) ^ (i % 8) ≤ 128 := by
    calc (2 : Nat) ^ (i % 8) ≤ 2 ^ 7 := Nat.pow_le_pow_right (by omega) (by omega)
      _ = 128 := by norm_num
  intro heq
  simp only [demoMac, List.cons.injEq, and_true] at heq
  have hfp : flipBitAt i ct = ct.set (i / 8) (flipByte (i % 8) (ct.getD (i / 8) 0)) := rfl
  rw [hfp] at heq
  rcases flipByte_spec (i % 8) (ct.getD (i / 8) 0) with ⟨hge, hfb⟩ | hfb <;>
    rw [hfb] at hsum heq <;> omega

/-- A concrete instantiation of the external AEAD primitive's contract. -/
def demoPrim : AeadPrim where
  keystream := demoKeystream
  mac := demoMac
  keystream_length := by
    intro k iv n
    simp [demoKeystream]
  mac_length := by
    intro k iv ct
    simp [demoMac]
  mac_flip := demoMac_flip

/-- A 32-byte key as a 64-character hex string. -/
def demoKey : String :=
  "0000000000000000000000000000000000000000000000000000000000000000"

/-- Witness for C3: the round trip evaluated at the concrete primitive, key,
iv and plaintext. -/
theorem aead_seal_open_roundtrip_witness :
    (encryptUtf8Data demoPrim (List.replicate 16 0) (strBytes "hi") demoKey).bind
      (fun envelope => decryptToUtf8 demoPrim envelope demoKey) = .ok (strBytes "hi") :=
  aead_seal_open_roundtrip demoPrim demoKey (List.replicate 16 0) (strBytes "hi")
    (by decide) (by decide)

/-- Witness for C4: flipping bit 256 (the first ciphertext bit) of the
concrete sealed envelope of `"hi"` is rejected as an authentication failure. -/
theorem aead_open_rejects_bit_flips_witness :
    decryptToUtf8 demoPrim
      (flipBitAt 256 (List.replicate 16 0 ++ (209 :: List.replicate 15 0) ++ [104, 105]))
      demoKey = .error .authenticationFailure :=
  aead_open_rejects_bit_flips demoPrim demoKey (List.replicate 16 0) (strBytes "hi") 256
    (List.replicate 16 0 ++ (209 :: List.replicate 15 0) ++ [104, 105])
    (by decide) (by decide) (by decide) (by decide) (by decide)

/-! ## C5 -/

/-- Whether a fetch ended in the `AllGatewaysFailed` terminal error. -/
def isAllGatewaysFailed (o : FetchOutcome) : Bool :=
  match o.result with
  | .error (.allGateways _) => true
  | _ => false

/-- C5 counterexample: the claim states `getFromIpfs` raises
`AllGatewaysFailed` carrying the last error if and only if every gateway in
the list fails, for every ordered gateway list.  On the empty list every
gateway fails vacuously, yet the code reaches `lastError.message` with
`lastError` still `null` and dies with a `TypeError` instead of the
`AllGatewaysFailed` error, so the "if" direction fails there. -/
theorem getFromIpfs_empty_gateways_null_deref :
    (getFromIpfs (fun _ => .error "unreachable") demoPrim [] "QmTest" none).result =
      .error .nullLastError ∧
    isAllGatewaysFailed (getFromIpfs (fun _ => .error "unreachable") demoPrim [] "QmTest" none) =
      false := by
  constructor
  · rfl
  · rfl

lemma getFromIpfsGo_cons_fail (env : String → Except String String) (prim : AeadPrim)
    (key : Option String) (cid g : String) (rest : List String) (le : Option String)
    (e : String) (hg : attemptFetch env prim key (g ++ cid) = .error e) :
    getFromIpfsGo env prim key cid (g :: rest) le =
      ⟨(getFromIpfsGo env prim key cid rest (some e)).result,
        (g ++ cid) :: (getFromIpfsGo env prim key cid rest (some e)).attempts⟩ := by
  simp [getFromIpfsGo, hg]

lemma getFromIpfsGo_cons_ok (env : String → Except String String) (prim : AeadPrim)
    (key : Option String) (cid g : String) (rest : List String) (le : Option String)
    (c : String) (hg : attemptFetch env prim key (g ++ cid) = .ok c) :
    getFromIpfsGo env prim key cid (g :: rest) le = ⟨.ok c, [g ++ cid]⟩ := by
  simp [getFromIpfsGo, hg]

lemma getFromIpfsGo_allFail (env : String → Except String String) (prim : AeadPrim)
    (key : Option String) (cid : String) (err : String → String) :
    ∀ (gws : List String), gws ≠ [] →
      (∀ g ∈ gws, attemptFetch env prim key (g ++ cid) = .error (err g)) →
      ∀ (le : Option String),
        getFromIpfsGo env prim key cid gws le =
          ⟨.error (.allGateways
              ("Failed to retrieve from all IPFS gateways: " ++ err (gws.getLastD ""))),
            gws.map (fun g => g ++ cid)⟩ := by
  intro gws
  induction gws with
  | nil => intro h; exact absurd rfl h
  | cons g rest ih =>
    intro _ hfail le
    have hg := hfail g (List.mem_cons_self g rest)
    rw [getFromIpfsGo_cons_fail env prim key cid g rest le (err g) hg]
    cases rest with
    | nil =>
      simp [getFromIpfsGo, List.getLastD]
    | cons r rs =>
      have hfail' : ∀ x ∈ r :: rs, attemptFetch env prim key (x ++ cid) = .error (err x) :=
        fun x hx => hfail x (List.mem_cons_of_mem _ hx)
      have hrec := ih (by simp) hfail' (some (err g))
      rw [hrec]
      simp [List.getLastD_cons]

lemma getFromIpfsGo_firstSuccess (env : String → Except String String) (prim : AeadPrim)
    (key : Option String) (cid : String) (c : String) :
    ∀ (pre : List String) (g : String) (post : List String) (le : Option String),
      (∀ p ∈ pre, ∃ e, attemptFetch env prim key (p ++ cid) = .error e) →
      attemptFetch env prim key (g ++ cid) = .ok c →
      getFromIpfsGo env prim key cid (pre ++ g :: post) le =
        ⟨.ok c, (pre ++ [g]).map (fun x => x ++ cid)⟩ := by
  intro pre
  induction pre with
  | nil =>
    intro g post le _ hok
    rw [List.nil_append, getFromIpfsGo_cons_ok env prim key cid g post le c hok]
    simp
  | cons p ps ih =>
    intro g post le hpre hok
    obtain ⟨e, he⟩ := hpre p (List.mem_cons_self p ps)
    have hpre' : ∀ x ∈ ps, ∃ e, attemptFetch env prim key (x ++ cid) = .error e :=
      fun x hx => hpre x (List.mem_cons_of_mem _ hx)
    rw [List.cons_append, getFromIpfsGo_cons_fail env prim key cid p (ps ++ g :: post) le e he]
    rw [ih g post (some e) hpre' hok]
    simp

/-- C5 amended: for every NONEMPTY ordered gateway list, `getFromIpfs` tries
gateways strictly in list order; when every gateway's attempt fails it
raises `AllGatewaysFailed` carrying the message of the LAST gateway's error
after contacting every gateway; and when some gateway succeeds after a
failing prefix it returns that first success's content having contacted
exactly the prefix and the successful gateway — never any later gateway.
(On an empty gateway list the code instead crashes dereferencing the null
`lastError`; see the counterexample.) -/
theorem getFromIpfs_ordered_fallback (env : String → Except String String) (prim : AeadPrim)
    (key : Option String) (cid : String) :
    (∀ (gws : List String) (err : String → String), gws ≠ [] →
      (∀ g ∈ gws, attemptFetch env prim key (g ++ cid) = .error (err g)) →
      getFromIpfs env prim gws cid key =
        ⟨.error (.allGateways
            ("Failed to retrieve from all IPFS gateways: " ++ err (gws.getLastD ""))),
          gws.map (fun g => g ++ cid)⟩) ∧
    (∀ (pre : List String) (g : String) (post : List String) (c : String),
      (∀ p ∈ pre, ∃ e, attemptFetch env prim key (p ++ cid) = .error e) →
      attemptFetch env prim key (g ++ cid) = .ok c →
      getFromIpfs env prim (pre ++ g :: post) cid key =
        ⟨.ok c, (pre ++ [g]).map (fun x => x ++ cid)⟩) := by
  constructor
  · intro gws err hne hfail
    exact getFromIpfsGo_allFail env prim key cid err gws hne hfail none
  · intro pre g post c hpre hok
    exact getFromIpfsGo_firstSuccess env prim key cid c pre g post none hpre hok

/-- Witness for C5 amended: two concrete gateways; a run where both fail
raises `AllGatewaysFailed` with the last message after contacting both, and
a run where the second succeeds returns its content having contacted
exactly both (and no later gateway, there being none after the success). -/
theorem getFromIpfs_ordered_fallback_witness :
    getFromIpfs (fun _ => .error "boom") demoPrim ["g1/", "g2/"] "QmW" none =
      ⟨.error (.allGateways ("Failed to retrieve from all IPFS gateways: " ++ "boom")),
        ["g1/QmW", "g2/QmW"]⟩ ∧
    getFromIpfs (fun url => if url = "g2/QmW" then .ok "the content" else .error "boom")
        demoPrim ["g1/", "g2/"] "QmW" none =
      ⟨.ok "the content", ["g1/QmW", "g2/QmW"]⟩ := by
  constructor
  · have h := (getFromIpfs_ordered_fallback (fun _ => .error "boom") demoPrim none "QmW").1
      ["g1/", "g2/"] (fun _ => "boom") (by decide) (by intro g hg; rfl)
    rw [h]
    decide
  · have h := (getFromIpfs_ordered_fallback
        (fun url => if url = "g2/QmW" then .ok "the content" else .error "boom")
        demoPrim none "QmW").2
      ["g1/"] "g2/" [] "the content"
      (by
        intro p hp
        have hp' : p = "g1/" := by simpa using hp
        subst hp'
        exact ⟨"boom", by decide⟩)
      (by decide)
    simpa using h

/-! ## C9: infrastructure on hex decoding and base-58 encoding -/

lemma hexDigitVal_lt_16 (c : Char) (v : Nat) (h : hexDigitVal c = some v) : v < 16 := by
  unfold hexDigitVal at h
  split at h
  · rename_i hc
    obtain ⟨_, hc2⟩ := hc
    rw [Char.le_def, UInt32.le_def, BitVec.le_def] at hc2
    simp only [Option.some.injEq] at h
    subst h
    have : c.toNat ≤ 57 := hc2
    omega
  · split at h
    · rename_i hc
      obtain ⟨_, hc2⟩ := hc
      rw [Char.le_def, UInt32.le_def, BitVec.le_def] at hc2
      simp only [Option.some.injEq] at h
      subst h
      have : c.toNat ≤ 102 := hc2
      omega
    · split at h
      · rename_i hc
        obtain ⟨_, hc2⟩ := hc
        rw [Char.le_def, UInt32.le_def, BitVec.le_def] at hc2
        simp only [Option.some.injEq] at h
        subst h
        have : c.toNat ≤ 70 := hc2
        omega
      · exact absurd h (by simp)

lemma hexPairs_spec : ∀ (cs : List Char), (∀ c ∈ cs, (hexDigitVal c).isSome) →
    (hexPairs cs).length = cs.length / 2 ∧ ∀ b ∈ hexPairs cs, b < 256
  | [], _ => by simp [hexPairs]
  | [c], _ => by simp [hexPairs]
  | c1 :: c2 :: rest, hall => by
    have h1 := hall c1 (by simp)
    have h2 := hall c2 (by simp)
    obtain ⟨v1, hv1⟩ := Option.isSome_iff_exists.1 h1
    obtain ⟨v2, hv2⟩ := Option.isSome_iff_exists.1 h2
    have hrest := hexPairs_spec rest (fun c hc => hall c (by simp [hc]))
    have hb1 := hexDigitVal_lt_16 c1 v1 hv1
    have hb2 := hexDigitVal_lt_16 c2 v2 hv2
    constructor
    · simp only [hexPairs, hv1, hv2, List.length_cons]
      omega
    · intro b hb
      simp only [hexPairs, hv1, hv2, List.mem_cons] at hb
      rcases hb with hb | hb
      · omega
      · exact hrest.2 b hb

lemma bytesToNat_foldl_acc :
    ∀ (l : List Nat) (acc : Nat),
      l.foldl (fun acc b => 256 * acc + b) acc =
        acc * 256 ^ l.length + l.foldl (fun acc b => 256 * acc + b) 0
  | [], acc => by simp
  | x :: xs, acc => by
    have h1 := bytesToNat_foldl_acc xs (256 * acc + x)
    have h2 := bytesToNat_foldl_acc xs (256 * 0 + x)
    simp only [List.foldl_cons, List.length_cons] at h1 h2 ⊢
    rw [h1, h2]
    ring

lemma bytesToNat_cons (x : Nat) (l : List Nat) :
    bytesToNat (x :: l) = x * 256 ^ l.length + bytesToNat l := by
  unfold bytesToNat
  simp only [List.foldl_cons]
  have := bytesToNat_foldl_acc l (256 * 0 + x)
  simpa using this

lemma bytesToNat_lt : ∀ (l : List Nat), (∀ b ∈ l, b < 256) → bytesToNat l < 256 ^ l.length
  | [], _ => by simp [bytesToNat]
  | x :: xs, hall => by
    have hx : x < 256 := hall x (by simp)
    have ih := bytesToNat_lt xs (fun b hb => hall b (by simp [hb]))
    rw [bytesToNat_cons, List.length_cons, pow_succ]
    calc x * 256 ^ xs.length + bytesToNat xs
        < x * 256 ^ xs.length + 256 ^ xs.length := by omega
      _ = (x + 1) * 256 ^ xs.length := by ring
      _ ≤ 256 * 256 ^ xs.length := by
          have : x + 1 ≤ 256 := by omega
          exact Nat.mul_le_mul_right _ this
      _ = 256 ^ xs.length * 256 := by ring

lemma natToBase58Aux_congr : ∀ (v f1 f2 : Nat), v ≤ f1 → v ≤ f2 →
    natToBase58Aux f1 v = natToBase58Aux f2 v := by
  intro v
  induction v using Nat.strong_induction_on with
  | _ v ih =>
    intro f1 f2 h1 h2
    cases f1 with
    | zero =>
      have hv : v = 0 := by omega
      subst hv
      cases f2 with
      | zero => rfl
      | succ g2 => simp [natToBase58Aux]
    | succ g1 =>
      cases f2 with
      | zero =>
        have hv : v = 0 := by omega
        subst hv
        simp [natToBase58Aux]
      | succ g2 =>
        by_cases hv : v = 0
        · simp [natToBase58Aux, hv]
        · simp only [natToBase58Aux, if_neg hv]
          have hlt : v / 58 < v := Nat.div_lt_self (Nat.pos_of_ne_zero hv) (by omega)
          rw [ih (v / 58) hlt g1 g2 (by omega) (by omega)]

lemma natToBase58_eq (v : Nat) (hv : v ≠ 0) :
    natToBase58 v = natToBase58 (v / 58) ++ [v % 58] := by
  cases v with
  | zero => exact absurd rfl hv
  | succ w =>
    show natToBase58Aux (w + 1) (w + 1) = _
    simp only [natToBase58Aux, if_neg hv]
    have hle : (w + 1) / 58 ≤ w := by
      have := Nat.div_lt_self (Nat.succ_pos w) (show 1 < 58 by omega)
      omega
    rw [natToBase58Aux_congr ((w + 1) / 58) w ((w + 1) / 58) hle le_rfl]
    rfl

/-- Fixed-width base-58 digits (with leading zeros) of a value below
`58 ^ k`, least significant digit last. -/
def padDigits : Nat → Nat → List Nat
  | 0, _ => []
  | k + 1, r => padDigits k (r / 58) ++ [r % 58]

lemma natToBase58_split (a : Nat) (ha : a ≠ 0) : ∀ (k r : Nat), r < 58 ^ k →
    natToBase58 (a * 58 ^ k + r) = natToBase58 a ++ padDigits k r := by
  intro k
  induction k with
  | zero =>
    intro r hr
    have hr0 : r = 0 := by simpa using Nat.lt_one_iff.1 (by simpa using hr)
    subst hr0
    simp [padDigits]
  | succ k ih =>
    intro r hr
    have hane : 0 < a * 58 ^ (k + 1) :=
      Nat.mul_pos (Nat.pos_of_ne_zero ha) (Nat.pos_pow_of_pos _ (by omega))
    rw [natToBase58_eq _ (by omega)]
    have hdiv : (a * 58 ^ (k + 1) + r) / 58 = a * 58 ^ k + r / 58 := by
      rw [pow_succ, show a * (58 ^ k * 58) + r = r + a * 58 ^ k * 58 by ring]
      rw [Nat.add_mul_div_right _ _ (show 0 < 58 by omega)]
      omega
    have hmod : (a * 58 ^ (k + 1) + r) % 58 = r % 58 := by
      rw [pow_succ, show a * (58 ^ k * 58) + r = r + a * 58 ^ k * 58 by ring]
      exact Nat.add_mul_mod_self_right r (a * 58 ^ k) 58
    have hr' : r / 58 < 58 ^ k := by
      rw [Nat.div_lt_iff_lt_mul (by omega)]
      rw [← pow_succ]
      exact hr
    rw [hdiv, hmod, ih (r / 58) hr', List.append_assoc]
    rfl

/-- A 32-byte digest rendered as 64 hexadecimal characters. -/
def isHex64 (s : String) : Prop :=
  s.data.length = 64 ∧ ∀ c ∈ s.data, (hexDigitVal c).isSome

lemma hashToCid_Qm_fixed (s : String) (h : strStartsWith s "Qm" = true) :
    hashToCid s = s := by
  have hdata : ∃ rest, s.data = 'Q' :: 'm' :: rest := by
    unfold strStartsWith at h
    rw [show ("Qm" : String).data = ['Q', 'm'] from rfl] at h
    cases hd : s.data with
    | nil => rw [hd] at h; simp [List.isPrefixOf] at h
    | cons c cs =>
      cases cs with
      | nil => rw [hd] at h; simp [List.isPrefixOf] at h
      | cons c2 cs2 =>
        rw [hd] at h
        simp only [List.isPrefixOf, Bool.and_eq_true, beq_iff_eq] at h
        obtain ⟨h1, h2, _⟩ := h
        exact ⟨cs2, by rw [h1, h2]⟩
  obtain ⟨rest, hdata⟩ := hdata
  have hno0x : strStartsWith s "0x" = false := by
    unfold strStartsWith
    rw [show ("0x" : String).data = ['0', 'x'] from rfl, hdata]
    simp [List.isPrefixOf]
  unfold hashToCid
  rw [hno0x]
  simp only [Bool.false_eq_true, if_false, h, if_true]

lemma hashToCid_hex64 (s : String) (h : isHex64 s) :
    ∃ tail, hashToCid s = String.mk ('Q' :: 'm' :: tail) := by
  obtain ⟨hlen, hhex⟩ := h
  obtain ⟨c0, c1, rest, hdata⟩ : ∃ c0 c1 rest, s.data = c0 :: c1 :: rest := by
    cases hd : s.data with
    | nil => rw [hd] at hlen; simp at hlen
    | cons c cs =>
      cases cs with
      | nil => rw [hd] at hlen; simp at hlen
      | cons c2 cs2 => exact ⟨c, c2, cs2, rfl⟩
  have hc0 : (hexDigitVal c0).isSome := hhex c0 (by rw [hdata]; simp)
  have hc1 : (hexDigitVal c1).isSome := hhex c1 (by rw [hdata]; simp)
  have hc0Q : ('Q' == c0) = false := by
    rw [beq_eq_false_iff_ne]
    intro he
    rw [← he] at hc0
    exact absurd hc0 (by decide)
  have hc1x : ('x' == c1) = false := by
    rw [beq_eq_false_iff_ne]
    intro he
    rw [← he] at hc1
    exact absurd hc1 (by decide)
  have hno0x : strStartsWith s "0x" = false := by
    unfold strStartsWith
    rw [show ("0x" : String).data = ['0', 'x'] from rfl, hdata]
    simp [List.isPrefixOf, hc1x]
  have hnoQm : strStartsWith s "Qm" = false := by
    unfold strStartsWith
    rw [show ("Qm" : String).data = ['Q', 'm'] from rfl, hdata]
    simp [List.isPrefixOf, hc0Q]
  have hstep : hashToCid s = bs58encode (multihashSha256 (hexDecode s)) := by
    unfold hashToCid
    rw [hno0x]
    simp only [Bool.false_eq_true, if_false, hnoQm]
  -- properties of the decoded digest
  have hdec := hexPairs_spec s.data hhex
  have hdlen : (hexDecode s).length = 32 := by
    unfold hexDecode
    rw [hdec.1, hlen]
  have hdbound : ∀ b ∈ hexDecode s, b < 256 := hdec.2
  have hN : bytesToNat (hexDecode s) < 256 ^ 32 := by
    have := bytesToNat_lt (hexDecode s) hdbound
    rwa [hdlen] at this
  have hmh : multihashSha256 (hexDecode s) = 18 :: 32 :: hexDecode s := by
    unfold multihashSha256
    rw [hdlen]
  have hv : bytesToNat (18 :: 32 :: hexDecode s) =
      4640 * 256 ^ 32 + bytesToNat (hexDecode s) := by
    rw [bytesToNat_cons, bytesToNat_cons, List.length_cons, hdlen]
    have : (18 : Nat) * 256 ^ (32 + 1) + 32 * 256 ^ 32 = 4640 * 256 ^ 32 := by
      rw [pow_succ]
      ring
    omega
  have hq : bytesToNat (18 :: 32 :: hexDecode s) / 58 ^ 44 = 1378 := by
    have h1 : (4640 : Nat) * 256 ^ 32 / 58 ^ 44 = 1378 := by decide
    have h2 : ((4640 : Nat) * 256 ^ 32 + (256 ^ 32 - 1)) / 58 ^ 44 = 1378 := by decide
    have mono1 : (4640 : Nat) * 256 ^ 32 / 58 ^ 44 ≤
        bytesToNat (18 :: 32 :: hexDecode s) / 58 ^ 44 :=
      Nat.div_le_div_right (by omega)
    have mono2 : bytesToNat (18 :: 32 :: hexDecode s) / 58 ^ 44 ≤
        ((4640 : Nat) * 256 ^ 32 + (256 ^ 32 - 1)) / 58 ^ 44 :=
      Nat.div_le_div_right (by omega)
    omega
  have hrlt : bytesToNat (18 :: 32 :: hexDecode s) % 58 ^ 44 < 58 ^ 44 :=
    Nat.mod_lt _ (Nat.pos_pow_of_pos _ (by omega))
  have hsplit : bytesToNat (18 :: 32 :: hexDecode s) =
      1378 * 58 ^ 44 + bytesToNat (18 :: 32 :: hexDecode s) % 58 ^ 44 := by
    have hdm := Nat.div_add_mod (bytesToNat (18 :: 32 :: hexDecode s)) (58 ^ 44)
    rw [hq, Nat.mul_comm] at hdm
    omega
  have hdigits : natToBase58 (bytesToNat (18 :: 32 :: hexDecode s)) =
      [23, 44] ++ padDigits 44 (bytesToNat (18 :: 32 :: hexDecode s) % 58 ^ 44) := by
    conv_lhs => rw [hsplit]
    rw [natToBase58_split 1378 (by decide) 44 _ hrlt]
    congr 1
  refine ⟨(padDigits 44 (bytesToNat (18 :: 32 :: hexDecode s) % 58 ^ 44)).map base58Char, ?_⟩
  rw [hstep, hmh]
  unfold bs58encode
  rw [hdigits]
  rw [show ((18 :: 32 :: hexDecode s).takeWhile (· == 0)) = [] from rfl]
  simp only [List.length_nil, List.replicate_zero, List.nil_append, List.map_append,
    List.map_cons, List.map_nil]
  rw [show base58Char 23 = 'Q' from rfl, show base58Char 44 = 'm' from rfl]
  rfl

/-- C9: `hashToCid` is idempotent.  First, any input already carrying the
CID prefix `Qm` is returned unchanged; second, for every 32-byte digest
(64 hex characters) the produced locator again starts with `Qm` (the
constant leading base-58 digits of `0x1220`-prefixed 34-byte values), so a
second application returns it unchanged:
`hashToCid (hashToCid d) = hashToCid d`. -/
theorem hashToCid_idempotent :
    (∀ s : String, strStartsWith s "Qm" = true → hashToCid s = s) ∧
    (∀ s : String, isHex64 s → hashToCid (hashToCid s) = hashToCid s) := by
  constructor
  · exact hashToCid_Qm_fixed
  · intro s hs
    obtain ⟨tail, htail⟩ := hashToCid_hex64 s hs
    rw [htail]
    apply hashToCid_Qm_fixed
    unfold strStartsWith
    rw [show ("Qm" : String).data = ['Q', 'm'] from rfl]
    simp [List.isPrefixOf]

/-- Witness for C9: a concrete CID is a fixed point, and a concrete 32-byte
digest (the keccak digest from the C2 scenario) round-trips idempotently. -/
theorem hashToCid_idempotent_witness :
    hashToCid "QmYwAPJzv5CZsnA625s3Xf2nemtYgPpHdWEz79ojWnPbdG" =
      "QmYwAPJzv5CZsnA625s3Xf2nemtYgPpHdWEz79ojWnPbdG" ∧
    hashToCid (hashToCid "9e70d347eb27e5edfa2b03409b020ecdaba0997a7a4806a5c441694ea6bf9b5d") =
      hashToCid "9e70d347eb27e5edfa2b03409b020ecdaba0997a7a4806a5c441694ea6bf9b5d" :=
  ⟨hashToCid_idempotent.1 _ (by decide),
   hashToCid_idempotent.2 _ (by constructor <;> decide)⟩

/-! ## C7 -/

/-- C7: applying to a job whose creator has no published verification key
(`''` or `'0x'`) fails with the distinct missing-key error and leaves all
local state unchanged: `applyForJob` returns `false`, classifies the error
as `missingKey`, does not add the job id to `processedJobs` and posts no
thread-message transaction; and the whole `processJob` pipeline built on it
leaves the manager state (processed set and active set) unchanged, posts
nothing and attempts no take. -/
theorem applyForJob_missingKey_atomic (env : Chain) (prim : AeadPrim) (wallet : String)
    (fetchEnv : String → Except String String) (gateways relevantTags : List String)
    (agents : List AgentSpec) (st : ManagerState) (job : Job) (msg : String)
    (hk : env.publicKeys ((env.jobs job.id).creator) = "" ∨
      env.publicKeys ((env.jobs job.id).creator) = "0x") :
    applyForJob env prim wallet st.processed job.id msg =
      ⟨false, some .missingKey, st.processed, []⟩ ∧
    processJob env prim wallet fetchEnv gateways relevantTags agents st job = ⟨st, [], []⟩ := by
  have happly : ∀ (p : List Nat) (m : String),
      applyForJob env prim wallet p job.id m = ⟨false, some .missingKey, p, []⟩ := by
    intro p m
    unfold applyForJob
    rw [if_pos hk]
  refine ⟨happly st.processed msg, ?_⟩
  unfold processJob
  by_cases hrel : isRelevantJob st.processed relevantTags job
      (getJobContent fetchEnv prim gateways job)
  · rw [if_neg (by simp [hrel])]
    cases hfil : agents.filter
        (fun a => a.isJobMatch job (getJobContent fetchEnv prim gateways job)) with
    | nil => rfl
    | cons a rest =>
      simp only [happly]
      rfl
  · rw [if_pos (by simp [hrel])]

/-- The job of the C7 scenario: open, relevant, single agent matching, but
its creator has published no key. -/
def jobC7 : Job :=
  ⟨3, "Need a Discord bot", 0, "0xowner", "", "", true, ["bot"], "", ""⟩

/-- A chain environment whose users have no published keys. -/
def chainC7 : Chain :=
  ⟨fun _ => jobC7, fun _ => "0x", signDemo, fun _ => .ok "QmPinned",
    fun _ => true, fun _ => true, List.replicate 16 0⟩

/-- An agent that matches everything. -/
def agentC7 : AgentSpec :=
  ⟨fun _ _ => true, fun _ _ => "I can build this bot"⟩

/-- Witness for C7: the missing-key application at a concrete job leaves the
empty manager state untouched. -/
theorem applyForJob_missingKey_atomic_witness :
    applyForJob chainC7 demoPrim "0xme" ([] : List Nat) 3 "application text" =
      ⟨false, some .missingKey, [], []⟩ ∧
    processJob chainC7 demoPrim "0xme" (fun _ => .error "offline") ["g/"] ["bot"]
      [agentC7] ⟨[], []⟩ jobC7 = ⟨⟨[], []⟩, [], []⟩ :=
  applyForJob_missingKey_atomic chainC7 demoPrim "0xme" (fun _ => .error "offline")
    ["g/"] ["bot"] [agentC7] ⟨[], []⟩ jobC7 "application text" (Or.inr rfl)

/-! ## C10 -/

/-- The relevance test restricted to title and tags only (what
`isRelevantJob` degrades to when no content could be fetched). -/
def relevantByTitleTags (processedJobs : List Nat) (relevantTags : List String)
    (job : Job) : Bool :=
  if job.state ≠ 0 then false
  else if processedJobs.contains job.id then false
  else if job.title ≠ "" ∧
      relevantTags.any (fun tag => strIncludes (strToLower job.title) (strToLower tag)) then
    true
  else if job.tags ≠ [] ∧
      job.tags.any (fun tag =>
        relevantTags.any (fun relevantTag => strIncludes (strToLower tag) (strToLower relevantTag))) then
    true
  else false

/-- C10: `getJobContent` is total and never raises.  It returns the empty
string when the job's digest is absent or all-zero, and when every gateway
attempt fails; and with empty content `isRelevantJob` degrades exactly to
the title-and-tags match, so a content-retrieval failure silently narrows
the relevance test instead of aborting the job. -/
theorem getJobContent_total_and_degrades :
    (∀ (env : String → Except String String) (prim : AeadPrim) (gws : List String) (job : Job),
      job.contentHash = "" ∨ job.contentHash = zeroContentHash →
      getJobContent env prim gws job = "") ∧
    (∀ (env : String → Except String String) (prim : AeadPrim) (gws : List String) (job : Job)
      (err : String → String),
      (∀ g ∈ gws, attemptFetch env prim none (g ++ hashToCid job.contentHash) = .error (err g)) →
      getJobContent env prim gws job = "") ∧
    (∀ (processed : List Nat) (tags : List String) (job : Job),
      isRelevantJob processed tags job "" = relevantByTitleTags processed tags job) := by
  refine ⟨?_, ?_, ?_⟩
  · intro env prim gws job h
    unfold getJobContent
    rw [if_pos h]
  · intro env prim gws job err hfail
    unfold getJobContent
    by_cases hzero : job.contentHash = "" ∨ job.contentHash = zeroContentHash
    · rw [if_pos hzero]
    · rw [if_neg hzero]
      cases gws with
      | nil => rfl
      | cons g rest =>
        have hres := getFromIpfsGo_allFail env prim none (hashToCid job.contentHash) err
          (g :: rest) (by simp) hfail none
        simp only [getFromIpfs, hres]
  · intro processed tags job
    unfold isRelevantJob relevantByTitleTags
    simp

/-- The job of the C10 witness: open, nonzero digest, unreachable gateways. -/
def jobC10 : Job :=
  ⟨5, "Need a Discord bot", 0, "0xo", "", "", true, ["automation"],
    "9e70d347eb27e5edfa2b03409b020ecdaba0997a7a4806a5c441694ea6bf9b5d", ""⟩

/-- Witness for C10: a zero-digest job and an all-gateways-failing fetch
both yield empty content, and the relevance of `jobC10` on empty content
equals its title-and-tags relevance. -/
theorem getJobContent_total_and_degrades_witness :
    getJobContent (fun _ => .error "offline") demoPrim ["g/"]
      ⟨5, "t", 0, "0xo", "", "", true, [], "", ""⟩ = "" ∧
    getJobContent (fun _ => .error "offline") demoPrim ["g/"] jobC10 = "" ∧
    isRelevantJob [] ["bot"] jobC10 "" = relevantByTitleTags [] ["bot"] jobC10 :=
  ⟨getJobContent_total_and_degrades.1 _ demoPrim _ _ (Or.inl rfl),
   getJobContent_total_and_degrades.2.1 _ demoPrim _ jobC10 (fun _ => "offline")
     (by intro g hg; rfl),
   getJobContent_total_and_degrades.2.2 [] ["bot"] jobC10⟩

end EACC

